/-
Verification of the tilth code-intelligence engine against its specification.

The Rust sources under src/ are shallowly embedded below:
* paths are modelled as lists of components (`Path := List String`), matching
  `std::path::Path` semantics for the relative paths the engine manipulates;
* machine integers are modelled as `Nat`/`Int` with explicit wrap-around
  (`% 2^64`) where the source uses wrapping arithmetic;
* filesystem probes (`dir.join(m).exists()`) are modelled by an explicit
  `fsExists : Path → Bool` parameter;
* `SystemTime` values are seconds as `Nat`, with the clock `now` a parameter;
* `DefaultHasher` and the f64 Bloom-filter sizing computation are abstracted
  as explicit function parameters (the proved properties hold for every
  instantiation, and concrete instantiations witness the theorems).
-/
import Mathlib

set_option maxHeartbeats 1000000

open Batteries

/-- A filesystem path, as its list of components (`std::path::Path`). -/
abbrev FsPath := List String

/-- `Path::parent`: drop the final component; `None` at the root. -/
def FsPath.parent (p : FsPath) : Option FsPath :=
  match p with
  | [] => none
  | _ :: _ => some p.dropLast

/-- `Path::display`-style rendering used by `to_string_lossy`: components
joined with `/`. -/
def FsPath.render (p : FsPath) : String :=
  String.intercalate "/" p

/-- `str::contains(pat)`: substring containment, on the underlying chars. -/
def strContains (s pat : String) : Bool :=
  decide (List.IsInfix pat.data s.data)

/-- `u8::is_ascii_lowercase`-style lowering of one char
(`char::to_ascii_lowercase`). -/
def asciiLowerChar (c : Char) : Char :=
  if 65 ≤ c.toNat ∧ c.toNat ≤ 90 then Char.ofNat (c.toNat + 32) else c

/-- `str::to_ascii_lowercase`. -/
def asciiLower (s : String) : String :=
  String.mk (s.data.map asciiLowerChar)

/-- `str::starts_with(pat)`, on the underlying chars. -/
def strStartsWith (s pat : String) : Bool :=
  pat.data.isPrefixOf s.data

/-- `str::trim`: strip leading and trailing whitespace. -/
def strTrim (s : String) : String :=
  String.mk (((s.data.dropWhile Char.isWhitespace).reverse.dropWhile
    Char.isWhitespace).reverse)

-- ---------------------------------------------------------------------------
-- src/format.rs
-- ---------------------------------------------------------------------------

/-- `format::search_header` (src/format.rs lines 31-37): the first line of a
search result.  The scope is taken already rendered (`scope.display()`). -/
def search_header (query : String) (scope : String) (total defs usages : Nat) :
    String :=
  let parts :=
    if defs = 0 then toString total ++ " matches"
    else
      toString total ++ " matches (" ++ toString defs ++ " definitions, " ++
        toString usages ++ " usages)"
  "# Search: \"" ++ query ++ "\" in " ++ scope ++ " — " ++ parts

/-- The header format as the specification words it (always carries the
definitions/usages parenthetical).  Used to compare spec against code. -/
def specSearchHeader (query : String) (scope : String)
    (total defs usages : Nat) : String :=
  "# Search: \"" ++ query ++ "\" in " ++ scope ++ " — " ++
    toString total ++ " matches (" ++ toString defs ++ " definitions, " ++
    toString usages ++ " usages)"

-- ---------------------------------------------------------------------------
-- src/search/treesitter.rs
-- ---------------------------------------------------------------------------

/-- `DEFINITION_KINDS` (src/search/treesitter.rs lines 4-37), in source
order; the taxonomy groups of the source file's comments are kept as
separate lists below. -/
def DEFINITION_KINDS : List String :=
  ["function_declaration", "function_definition", "function_item",
   "method_definition", "method_declaration",
   "class_declaration", "class_definition", "struct_item",
   "interface_declaration", "type_alias_declaration", "type_item",
   "enum_item", "enum_declaration",
   "lexical_declaration", "variable_declaration", "const_item", "static_item",
   "trait_item", "impl_item", "mod_item",
   "decorated_definition",
   "type_declaration",
   "export_statement"]

/-- The `// Interfaces & types (TS)` group of `DEFINITION_KINDS`. -/
def interfaceTypeKinds : List String :=
  ["interface_declaration", "type_alias_declaration", "type_item"]

/-- `definition_weight` (src/search/treesitter.rs lines 129-153). -/
def definition_weight (kind : String) : Nat :=
  if kind = "function_declaration" ∨ kind = "function_definition" ∨
     kind = "function_item" ∨ kind = "method_definition" ∨
     kind = "method_declaration" ∨ kind = "class_declaration" ∨
     kind = "class_definition" ∨ kind = "struct_item" ∨
     kind = "interface_declaration" ∨ kind = "trait_item" ∨
     kind = "enum_item" ∨ kind = "enum_declaration" ∨
     kind = "type_item" ∨ kind = "type_declaration" ∨
     kind = "decorated_definition" then 100
  else if kind = "impl_item" then 90
  else if kind = "const_item" ∨ kind = "static_item" then 80
  else if kind = "mod_item" then 70
  else if kind = "lexical_declaration" ∨ kind = "variable_declaration" then 40
  else if kind = "export_statement" then 30
  else 50

-- ---------------------------------------------------------------------------
-- src/index/bloom.rs — BloomFilter
-- ---------------------------------------------------------------------------

/-- `BloomFilter` (src/index/bloom.rs lines 26-30).  `bits` is the `Vec<u64>`
of words (each entry a value `< 2^64`); `numHashes` the `u8` k; `numBits`
the usable bit count. -/
structure BloomFilter where
  bits : List Nat
  numHashes : Nat
  numBits : Nat
deriving Repr, DecidableEq

/-- `double_hash` (bloom.rs lines 111-115), parameterized by the embedded
`hash_with_seed` (a `DefaultHasher` round, abstracted as a function). -/
def double_hash (hashWithSeed : String → Nat → Nat) (item : String) :
    Nat × Nat :=
  (hashWithSeed item 0, hashWithSeed item 0x517cc1b727220a95)

/-- `combined_hash` (bloom.rs lines 118-122):
`h1.wrapping_add(i.wrapping_mul(h2)) % num_bits`, the u64 wrap made
explicit. -/
def combined_hash (h1 h2 i numBits : Nat) : Nat :=
  ((h1 + i * h2) % (2 ^ 64)) % numBits

/-- `BloomFilter::insert` (bloom.rs lines 81-89). -/
def BloomFilter.insert (hashWithSeed : String → Nat → Nat)
    (bf : BloomFilter) (item : String) : BloomFilter :=
  let (h1, h2) := double_hash hashWithSeed item
  { bf with
    bits := (List.range bf.numHashes).foldl
      (fun bits i =>
        let idx := combined_hash h1 h2 i bf.numBits
        bits.set (idx / 64) ((bits.getD (idx / 64) 0) ||| (1 <<< (idx % 64))))
      bf.bits }

/-- `BloomFilter::contains` (bloom.rs lines 96-107). -/
def BloomFilter.containsItem (hashWithSeed : String → Nat → Nat)
    (bf : BloomFilter) (item : String) : Bool :=
  let (h1, h2) := double_hash hashWithSeed item
  (List.range bf.numHashes).all
    (fun i =>
      let idx := combined_hash h1 h2 i bf.numBits
      (bf.bits.getD (idx / 64) 0) &&& (1 <<< (idx % 64)) ≠ 0)

/-- Well-formedness established by `BloomFilter::new`: the word vector
covers exactly `numBits` bits and is nonempty (`m.max(64)` then rounding
up to whole words). -/
def BloomFilter.wf (bf : BloomFilter) : Prop :=
  bf.numBits = 64 * bf.bits.length ∧ 0 < bf.bits.length

/-- `BloomFilter::new` (bloom.rs lines 50-78), after its asserts.  The two
f64 computations (optimal bit count `m` and optimal hash count `k`) are
abstracted as the parameters `optimalBits n fpr` and `optimalHashes m n`;
the clamps `m.max(64)`, `k.clamp(1,32)` and the rounding to whole words
are explicit. -/
def BloomFilter.new (optimalBits : Nat → ℚ → Nat)
    (optimalHashes : Nat → Nat → Nat)
    (expectedItems : Nat) (targetFpr : ℚ) : BloomFilter :=
  let m := (optimalBits expectedItems targetFpr).max 64
  let k := ((optimalHashes m expectedItems).max 1).min 32
  let numWords := (m + 63) / 64
  { bits := List.replicate numWords 0, numHashes := k,
    numBits := numWords * 64 }

/-- The assert guards of `BloomFilter::new` (bloom.rs lines 51-55): `none`
models the panic. -/
def BloomFilter.newChecked (optimalBits : Nat → ℚ → Nat)
    (optimalHashes : Nat → Nat → Nat)
    (expectedItems : Nat) (targetFpr : ℚ) : Option BloomFilter :=
  if expectedItems = 0 ∨ ¬(0 < targetFpr ∧ targetFpr < 1) then none
  else some (BloomFilter.new optimalBits optimalHashes expectedItems targetFpr)

-- ---------------------------------------------------------------------------
-- src/index/bloom.rs — identifier extraction state machine
-- ---------------------------------------------------------------------------

/-- `ScanState` (bloom.rs lines 211-225). -/
inductive ScanState where
  | Code
  | StringDouble
  | StringSingle
  | StringBacktick
  | LineComment
  | BlockComment
deriving Repr, DecidableEq

/-- `is_ident_start` (bloom.rs lines 358-361): ASCII alphabetic or `_`
(code 95). -/
def is_ident_start (c : Char) : Bool :=
  (65 ≤ c.toNat ∧ c.toNat ≤ 90) ∨ (97 ≤ c.toNat ∧ c.toNat ≤ 122) ∨
    c.toNat = 95

/-- `is_ident_continue` (bloom.rs lines 363-366): ASCII alphanumeric or
`_`. -/
def is_ident_continue (c : Char) : Bool :=
  is_ident_start c ∨ (48 ≤ c.toNat ∧ c.toNat ≤ 57)

/-- Consume the continuation of an identifier (the inner `while` of the
iterator, bloom.rs lines 292-295): returns the consumed run and the rest. -/
def takeIdent : List Char → List Char × List Char
  | [] => ([], [])
  | c :: cs =>
    if is_ident_continue c then
      let r := takeIdent cs
      (c :: r.1, r.2)
    else ([], c :: cs)

/-- The `IdentifierIter` state machine (bloom.rs lines 245-356), as a
function from scanner state and remaining input to the list of yielded
identifiers.  Bytes are modelled as chars (the scanned classes are all
ASCII); the characters compared against are written by code point:
34 `"`, 39 single quote, 96 backtick, 47 `/`, 42 `*`, 92 backslash,
10 newline.  Recursion is by a fuel argument (instantiated with the
input length, which bounds the step count since every step consumes at
least one char), keeping the function kernel-evaluable. -/
def scanIdents (state : ScanState) : Nat → List Char → List (List Char)
  | 0, _ => []
  | _, [] => []
  | fuel + 1, c :: rest =>
    match state with
    | ScanState.Code =>
      if c.toNat = 34 then scanIdents ScanState.StringDouble fuel rest
      else if c.toNat = 39 then scanIdents ScanState.StringSingle fuel rest
      else if c.toNat = 96 then scanIdents ScanState.StringBacktick fuel rest
      else if c.toNat = 47 ∧ rest.head?.any (fun c2 => c2.toNat = 47) then
        scanIdents ScanState.LineComment fuel rest.tail
      else if c.toNat = 47 ∧ rest.head?.any (fun c2 => c2.toNat = 42) then
        scanIdents ScanState.BlockComment fuel rest.tail
      else if is_ident_start c then
        let r := takeIdent rest
        (c :: r.1) :: scanIdents ScanState.Code fuel r.2
      else scanIdents ScanState.Code fuel rest
    | ScanState.StringDouble =>
      if c.toNat = 92 ∧ rest ≠ [] then
        scanIdents ScanState.StringDouble fuel rest.tail
      else if c.toNat = 34 then scanIdents ScanState.Code fuel rest
      else scanIdents ScanState.StringDouble fuel rest
    | ScanState.StringSingle =>
      if c.toNat = 92 ∧ rest ≠ [] then
        scanIdents ScanState.StringSingle fuel rest.tail
      else if c.toNat = 39 then scanIdents ScanState.Code fuel rest
      else scanIdents ScanState.StringSingle fuel rest
    | ScanState.StringBacktick =>
      if c.toNat = 92 ∧ rest ≠ [] then
        scanIdents ScanState.StringBacktick fuel rest.tail
      else if c.toNat = 96 then scanIdents ScanState.Code fuel rest
      else scanIdents ScanState.StringBacktick fuel rest
    | ScanState.LineComment =>
      if c.toNat = 10 then scanIdents ScanState.Code fuel rest
      else scanIdents ScanState.LineComment fuel rest
    | ScanState.BlockComment =>
      if c.toNat = 42 ∧ rest.head?.any (fun c2 => c2.toNat = 47) then
        scanIdents ScanState.Code fuel rest.tail
      else scanIdents ScanState.BlockComment fuel rest

/-- `extract_identifiers` (bloom.rs lines 206-208). -/
def extract_identifiers (content : String) : List String :=
  (scanIdents ScanState.Code content.data.length content.data).map String.mk

/-- `build_filter` (bloom.rs lines 183-193): size for
`idents.len().max(1)` at target FPR 0.01, then insert every identifier. -/
def build_filter (hashWithSeed : String → Nat → Nat)
    (optimalBits : Nat → ℚ → Nat) (optimalHashes : Nat → Nat → Nat)
    (content : String) : BloomFilter :=
  let idents := extract_identifiers content
  let expected := idents.length.max 1
  idents.foldl (fun f i => f.insert hashWithSeed i)
    (BloomFilter.new optimalBits optimalHashes expected (1 / 100))

-- ---------------------------------------------------------------------------
-- src/index/bloom.rs — BloomFilterCache
-- ---------------------------------------------------------------------------

/-- The `DashMap<PathBuf, (BloomFilter, SystemTime)>` backing
`BloomFilterCache`, as an association list; `insert` overwrites. -/
def BloomCache := List (FsPath × BloomFilter × Nat)

/-- `DashMap::get`. -/
def BloomCache.find : BloomCache → FsPath → Option (BloomFilter × Nat)
  | [], _ => none
  | (p, e) :: rest, q => if p = q then some e else BloomCache.find rest q

/-- `DashMap::insert` (overwrite semantics). -/
def BloomCache.store (c : BloomCache) (p : FsPath) (e : BloomFilter × Nat) :
    BloomCache :=
  (p, e) :: c.filter (fun pe => pe.1 ≠ p)

/-- `BloomFilterCache::contains` (bloom.rs lines 165-179): returns the
query answer and the updated cache state. -/
def BloomCache.containsSym (hashWithSeed : String → Nat → Nat)
    (optimalBits : Nat → ℚ → Nat) (optimalHashes : Nat → Nat → Nat)
    (c : BloomCache) (path : FsPath) (mtime : Nat) (content symbol : String) :
    Bool × BloomCache :=
  match c.find path with
  | some (filter, cachedMtime) =>
    if cachedMtime = mtime then (filter.containsItem hashWithSeed symbol, c)
    else
      let f := build_filter hashWithSeed optimalBits optimalHashes content
      (f.containsItem hashWithSeed symbol, c.store path (f, mtime))
  | none =>
    let f := build_filter hashWithSeed optimalBits optimalHashes content
    (f.containsItem hashWithSeed symbol, c.store path (f, mtime))

-- ---------------------------------------------------------------------------
-- src/search/rank.rs
-- ---------------------------------------------------------------------------

/-- The `Match` record (spec §3; the `types.rs` declaration is not part of
the provided sources, the fields are those consumed by rank.rs and
facets.rs).  `mtime` is seconds. -/
structure Match where
  path : FsPath
  line : Nat
  text : String
  is_definition : Bool
  def_range : Option (Nat × Nat)
  def_name : Option String
  def_weight : Nat
  impl_target : Option String
  exact : Bool
  file_lines : Nat
  mtime : Nat
deriving Repr, DecidableEq

/-- `VENDOR_DIRS` (rank.rs lines 7-19). -/
def VENDOR_DIRS : List String :=
  ["node_modules", "vendor", "dist", "build", ".git", "target",
   "__pycache__", ".venv", "venv", "pkg", "out"]

/-- `is_vendor_path` (rank.rs lines 187-193). -/
def is_vendor_path (path : FsPath) : Bool :=
  path.any (fun c => VENDOR_DIRS.contains c)

/-- `recency` (rank.rs lines 196-209); `now` is the sampled clock. -/
def recency (now mtime : Nat) : Nat :=
  let age := now - mtime
  if age ≤ 3600 then 100
  else if age ≤ 86400 then 80
  else if age ≤ 604800 then 50
  else if age ≤ 2592000 then 20
  else 0

/-- `scope_proximity` (rank.rs lines 126-130). -/
def scope_proximity (path scope : FsPath) : Nat :=
  let rel := if scope.isPrefixOf path then path.drop scope.length else path
  200 - rel.length * 20

/-- `Path::file_stem` of a file name: the portion before the final `.`,
the whole name when there is no `.` or only a leading one (46 = `.`). -/
def file_stem (name : String) : String :=
  let cs := name.data
  match (cs.enum.filter (fun p => p.2.toNat = 46)).getLast? with
  | none => name
  | some ji => if ji.1 = 0 then name else String.mk (cs.take ji.1)

/-- `basename_boost` (rank.rs lines 97-123).  The byte probe
`as_bytes().get(query.len())` is modelled at char level (the two coincide
on ASCII stems). -/
def basename_boost (path : FsPath) (query : String) : Int :=
  if query = "" then 0
  else
    match path.getLast? with
    | none => 0
    | some name =>
      let stemLower := asciiLower (file_stem name)
      let queryLower := asciiLower query
      if stemLower = queryLower then 300
      else if queryLower.data.isPrefixOf stemLower.data ∧
          ((stemLower.data.drop queryLower.data.length).head?.any
            (fun b => b.toNat = 95 ∨ b.toNat = 46)) then 150
      else if strContains stemLower queryLower then 100
      else 0

/-- The manifest list of `package_root` in rank.rs (lines 166-174).  Note:
unlike the `package_root` of search/mod.rs, it does NOT list `setup.py`. -/
def RANK_MANIFESTS : List String :=
  ["Cargo.toml", "package.json", "pyproject.toml", "go.mod", "pom.xml",
   "build.gradle"]

/-- Does `dir` contain one of `manifests`?  (`dir.join(m).exists()`). -/
def hasManifest (fsExists : FsPath → Bool) (manifests : List String)
    (dir : FsPath) : Bool :=
  manifests.any (fun m => fsExists (dir ++ [m]))

/-- The `loop` of the two `package_root` functions: test the current
directory, then step to the parent.  Fuel-based for kernel evaluability;
`fuel = dir.length + 1` always suffices (each step drops a component). -/
def packageRootGo (fsExists : FsPath → Bool) (manifests : List String) :
    Nat → FsPath → Option FsPath
  | 0, _ => none
  | fuel + 1, dir =>
    if hasManifest fsExists manifests dir then some dir
    else
      match dir with
      | [] => none
      | _ :: _ => packageRootGo fsExists manifests fuel dir.dropLast

/-- `package_root` of rank.rs (lines 166-184): starts at `path.parent()`
and walks up; no `setup.py` in its manifest list. -/
def rank_package_root (fsExists : FsPath → Bool) (path : FsPath) :
    Option FsPath :=
  match FsPath.parent path with
  | none => none
  | some d => packageRootGo fsExists RANK_MANIFESTS (d.length + 1) d

/-- `context_proximity` (rank.rs lines 133-163).  The `pkg_cache` of the
source is pure memoization of `package_root` and is dropped. -/
def context_proximity (fsExists : FsPath → Bool) (matchPath : FsPath)
    (ctxParent ctxPkgRoot : Option FsPath) : Int :=
  if ctxParent.isSome ∧ FsPath.parent matchPath = ctxParent then 100
  else
    match ctxPkgRoot with
    | some cpRoot =>
      match FsPath.parent matchPath with
      | none => 0
      | some matchDir =>
        match rank_package_root fsExists matchDir with
        | some mr => if mr = cpRoot then 75 else 0
        | none => 0
    | none => 0

/-- `score` (rank.rs lines 57-94). -/
def score (fsExists : FsPath → Bool) (now : Nat) (m : Match) (query : String)
    (scope : FsPath) (ctxParent ctxPkgRoot : Option FsPath) : Int :=
  (if m.is_definition then (m.def_weight : Int) * 10 else 0)
  + (if m.exact then 500 else 0)
  + (scope_proximity m.path scope : Int)
  + (recency now m.mtime : Int)
  + (if 0 < m.file_lines ∧ m.file_lines < 200 then 50 else 0)
  + (if ctxParent.isSome ∨ ctxPkgRoot.isSome then
      context_proximity fsExists m.path ctxParent ctxPkgRoot else 0)
  + basename_boost m.path query
  + (if is_vendor_path m.path then -200 else 0)

/-- `PathBuf::cmp`: lexicographic comparison of the component lists. -/
def pathCmp : FsPath → FsPath → Ordering
  | [], [] => Ordering.eq
  | [], _ :: _ => Ordering.lt
  | _ :: _, [] => Ordering.gt
  | a :: as, b :: bs => (compare a b).then (pathCmp as bs)

/-- The comparator of `sort` (rank.rs lines 33-53):
`sb.cmp(&sa).then_with(path cmp).then_with(line cmp)` — score descending,
then path and line ascending. -/
def rank_cmp (fsExists : FsPath → Bool) (now : Nat) (query : String)
    (scope : FsPath) (ctxParent ctxPkgRoot : Option FsPath)
    (a b : Match) : Ordering :=
  ((compare (score fsExists now b query scope ctxParent ctxPkgRoot)
      (score fsExists now a query scope ctxParent ctxPkgRoot)).then
    (pathCmp a.path b.path)).then
  (compare a.line b.line)

/-- The Boolean ≤ induced by `rank_cmp` (`a` may come before `b`). -/
def rankLE (fsExists : FsPath → Bool) (now : Nat) (query : String)
    (scope : FsPath) (ctxParent ctxPkgRoot : Option FsPath)
    (a b : Match) : Bool :=
  rank_cmp fsExists now query scope ctxParent ctxPkgRoot a b != Ordering.gt

/-- `sort` (rank.rs lines 23-54).  Rust's stable `sort_by` with comparator
`c` is modelled by the stable `mergeSort` with the predicate
`c a b ≠ Greater`.  `ctx_parent` and `ctx_pkg_root` are precomputed from
`context` exactly as in the source. -/
def rank_sort (fsExists : FsPath → Bool) (now : Nat) (ms : List Match)
    (query : String) (scope : FsPath) (context : Option FsPath) :
    List Match :=
  let ctxParent := context.bind FsPath.parent
  let ctxPkgRoot := context.bind (rank_package_root fsExists)
  ms.mergeSort (rankLE fsExists now query scope ctxParent ctxPkgRoot)

-- ---------------------------------------------------------------------------
-- src/search/mod.rs — package_root, expansion range
-- ---------------------------------------------------------------------------

/-- The manifest list of `package_root` in search/mod.rs (lines 66-74);
this one DOES list `setup.py`. -/
def MOD_MANIFESTS : List String :=
  ["Cargo.toml", "package.json", "pyproject.toml", "setup.py", "go.mod",
   "pom.xml", "build.gradle"]

/-- `package_root` of search/mod.rs (lines 65-84): starts at the given
path itself and walks up. -/
def mod_package_root (fsExists : FsPath → Bool) (path : FsPath) :
    Option FsPath :=
  packageRootGo fsExists MOD_MANIFESTS (path.length + 1) path

/-- `estimate_tokens`.  Modelled from the spec: the function lives in
`types.rs`, which is not among the provided sources; the spec fixes it as
`token_estimate(byte_len) == byte_len/4` (integer). -/
def estimate_tokens (byteLen : Nat) : Nat :=
  byteLen / 4

/-- `EXPAND_FULL_FILE_THRESHOLD` (mod.rs line 61). -/
def EXPAND_FULL_FILE_THRESHOLD : Nat := 800

/-- The range selection of `expand_match` (mod.rs lines 653-660): whole
file for small files (strictly under the threshold), otherwise
`def_range` or ±10 lines around the match, clamped. -/
def expand_select_range (byteLen : Nat) (total : Nat)
    (defRange : Option (Nat × Nat)) (line : Nat) : Nat × Nat :=
  if estimate_tokens byteLen < EXPAND_FULL_FILE_THRESHOLD then (1, total)
  else
    let se := defRange.getD (line - 10, line + 10)
    (se.1.max 1, se.2.min total)

/-- The import-line test of `expand_match` (mod.rs lines 671-677), on the
trimmed line. -/
def is_import_line (trimmed : String) : Bool :=
  strStartsWith trimmed "use " || strStartsWith trimmed "import " ||
  strStartsWith trimmed "from " || strStartsWith trimmed "#include" ||
  strStartsWith trimmed "require(" || strStartsWith trimmed "require " ||
  (strStartsWith trimmed "const " && strContains trimmed "= require(")

/-- The leading-import skip of `expand_match` (mod.rs lines 662-688):
for definitions whose range starts within the first 5 lines, advance the
start to the first non-import, non-blank line of the range (when one
exists). -/
def expand_range (byteLen : Nat) (lines : List String) (isDef : Bool)
    (defRange : Option (Nat × Nat)) (line : Nat) : Nat × Nat :=
  let se := expand_select_range byteLen lines.length defRange line
  let start := se.1
  let endL := se.2
  if isDef ∧ start ≤ 5 then
    let firstNonImport :=
      ((List.range' start (min endL lines.length + 1 - start)).find?
        (fun i =>
          let t := strTrim (lines.getD (i - 1) "")
          ¬ is_import_line t ∧ t.data ≠ [])).getD start
    if start < firstNonImport ∧ firstNonImport ≤ endL then
      (firstNonImport, endL)
    else (start, endL)
  else (start, endL)

-- ---------------------------------------------------------------------------
-- src/search/facets.rs
-- ---------------------------------------------------------------------------

/-- `FacetedResult` (facets.rs lines 6-12). -/
structure FacetedResult where
  definitions : List Match
  implementations : List Match
  tests : List Match
  usages_local : List Match
  usages_cross : List Match
deriving Repr, DecidableEq

/-- `is_test_match` (facets.rs lines 55-78); the path test is on the
rendered path string. -/
def is_test_match (m : Match) : Bool :=
  let pathStr := FsPath.render m.path
  strContains pathStr "_test." || strContains pathStr "/test/" ||
  strContains pathStr "/tests/" || strContains pathStr "_spec." ||
  strContains pathStr "/spec/" ||
  strContains m.text "#[test]" || strContains m.text "#[cfg(test)]" ||
  strContains m.text "@Test" || strContains m.text "def test_" ||
  strContains m.text "it(\"" || strContains m.text "it('" ||
  strContains m.text "describe(\"" || strContains m.text "describe('" ||
  strContains m.text "func Test"

/-- `is_same_package` (facets.rs lines 81-89). -/
def is_same_package (fsExists : FsPath → Bool) (path : FsPath)
    (primaryPkg : Option FsPath) : Bool :=
  match primaryPkg with
  | none => false
  | some pkgRoot =>
    match FsPath.parent path with
    | none => false
    | some d =>
      match mod_package_root fsExists d with
      | some p => p = pkgRoot
      | none => false

/-- The partition loop of `facet_matches` (facets.rs lines 31-43). -/
def facetLoop (fsExists : FsPath → Bool) (primaryPkg : Option FsPath) :
    List Match → FacetedResult
  | [] => ⟨[], [], [], [], []⟩
  | m :: rest =>
    let r := facetLoop fsExists primaryPkg rest
    if m.is_definition ∧ m.impl_target.isSome then
      { r with implementations := m :: r.implementations }
    else if m.is_definition then
      { r with definitions := m :: r.definitions }
    else if is_test_match m then
      { r with tests := m :: r.tests }
    else if is_same_package fsExists m.path primaryPkg then
      { r with usages_local := m :: r.usages_local }
    else
      { r with usages_cross := m :: r.usages_cross }

/-- The primary definition package root of `facet_matches` (facets.rs
lines 18-23): the first definition match's parent directory's package
root. -/
def facetPrimaryPkg (fsExists : FsPath → Bool) (ms : List Match) :
    Option FsPath :=
  ((ms.find? (fun m => m.is_definition)).bind
    (fun m => FsPath.parent m.path)).bind (mod_package_root fsExists)

/-- `facet_matches` (facets.rs lines 16-52). -/
def facet_matches (fsExists : FsPath → Bool) (ms : List Match) :
    FacetedResult :=
  facetLoop fsExists (facetPrimaryPkg fsExists ms) ms

-- ---------------------------------------------------------------------------
-- Hashline edit engine (spec §4.15)
-- ---------------------------------------------------------------------------

/-- Modelled from the spec: the `Edit` record of `crate::edit` (spec §3
"Edit record"); the module itself is not among the provided sources (only
its caller `tool_edit` in src/mcp.rs is).  Hashes are the 12-bit line
content hashes carried by anchors. -/
structure HlEdit where
  start_line : Nat
  start_hash : Nat
  end_line : Nat
  end_hash : Nat
  content : String
deriving Repr, DecidableEq

/-- Modelled from the spec: `EditResult` of `crate::edit`
(`Applied(new_content_header) | HashMismatch(diagnostic)`).  `Applied`
carries the new file lines (the content written to disk); `HashMismatch`
carries the diagnostic (the current hashlined view). -/
inductive EditOutcome where
  | Applied (newLines : List String)
  | HashMismatch (diag : List String)
deriving Repr, DecidableEq

/-- Modelled from the spec: the 3-hex-digit line hash
(`truncate_to_12_bits(stable_hash(line_text))`), with `stable_hash`
abstracted as a parameter. -/
def line_hash (stableHash : String → Nat) (lineText : String) : Nat :=
  stableHash lineText % 4096

/-- Modelled from the spec: one anchor check of step 2 of `apply_edits`
(`hash(line[n]) == h`, lines 1-indexed; an out-of-range line cannot
match). -/
def anchor_ok (stableHash : String → Nat) (lines : List String)
    (n h : Nat) : Bool :=
  1 ≤ n ∧ n ≤ lines.length ∧ line_hash stableHash (lines.getD (n - 1) "") = h

/-- Modelled from the spec: the hashlined view of a file (`line:hash|content`
per line), returned in a `HashMismatch` diagnostic. -/
def hashline_view (stableHash : String → Nat) (lines : List String) :
    List String :=
  lines.mapIdx (fun i l =>
    toString (i + 1) ++ ":" ++ toString (line_hash stableHash l) ++ "|" ++ l)

/-- Modelled from the spec: the descending-overlap check of step 3
(`later edit's end_line < next edit's start_line` along the list sorted by
`start_line` descending). -/
def edits_disjoint : List HlEdit → Bool
  | [] => true
  | [_] => true
  | e1 :: e2 :: rest => decide (e2.end_line < e1.start_line) && edits_disjoint (e2 :: rest)

/-- Modelled from the spec: insert into a list sorted by `start_line`
descending (step 3 of §4.15 sorts the batch by `start_line` descending). -/
def insertDesc (e : HlEdit) : List HlEdit → List HlEdit
  | [] => [e]
  | x :: xs =>
    if x.start_line ≤ e.start_line then e :: x :: xs else x :: insertDesc e xs

/-- Modelled from the spec: sort edits by `start_line` descending. -/
def sortByStartDesc (es : List HlEdit) : List HlEdit :=
  es.foldr insertDesc []

/-- Modelled from the spec: apply one edit, replacing the inclusive line
range `[start,end]` with `content` split on newlines (empty content
deletes the range). -/
def apply_one_edit (lines : List String) (e : HlEdit) : List String :=
  lines.take (e.start_line - 1) ++
  (if e.content = "" then [] else e.content.splitOn "\n") ++
  lines.drop e.end_line

/-- Modelled from the spec: `apply_edits` of `crate::edit` (spec §4.15),
on the file's lines.  Step 2 verifies every anchor (any mismatch returns
`HashMismatch` with the current hashlined view); step 3 sorts by
`start_line` descending and rejects overlap with an error; step 4 applies
in descending order.  The atomic write of step 5 is represented by the
`Applied` payload being the entire new file content. -/
def apply_edits (stableHash : String → Nat) (lines : List String)
    (edits : List HlEdit) : Except String EditOutcome :=
  if edits.all (fun e =>
      anchor_ok stableHash lines e.start_line e.start_hash &&
      anchor_ok stableHash lines e.end_line e.end_hash) then
    let sorted := sortByStartDesc edits
    if edits_disjoint sorted then
      Except.ok (EditOutcome.Applied (sorted.foldl apply_one_edit lines))
    else Except.error "overlapping edits"
  else
    Except.ok (EditOutcome.HashMismatch (hashline_view stableHash lines))

/-- The on-disk content after an `apply_edits` call: only a successful
`Applied` outcome rewrites the file. -/
def disk_after (lines : List String) (r : Except String EditOutcome) :
    List String :=
  match r with
  | Except.ok (EditOutcome.Applied newLines) => newLines
  | _ => lines

-- ---------------------------------------------------------------------------
-- Further definitions used by the theorems
-- ---------------------------------------------------------------------------

/-- The chain of directories inspected when walking up from `d`:
`d`, its parent, …, the root `[]` (nearest first). -/
def ancestorChain (d : FsPath) : List FsPath :=
  (List.range (d.length + 1)).map (fun i => d.take (d.length - i))

/-- A concrete filesystem for the C7 counterexample: the directory `pkg`
contains only a `setup.py` manifest. -/
def fsSetupOnly : FsPath → Bool :=
  fun p => p = ["pkg", "setup.py"]

/-- Kinds the claim's 100-weight categories cover (functions, classes,
structs, traits/interfaces, enums, types — including Python's decorated
definitions, which wrap functions/classes). -/
def weight100Kinds : List String :=
  ["function_declaration", "function_definition", "function_item",
   "method_definition", "method_declaration", "class_declaration",
   "class_definition", "struct_item", "interface_declaration", "trait_item",
   "enum_item", "enum_declaration", "type_item", "type_declaration",
   "decorated_definition"]

/-- Every kind `definition_weight` special-cases. -/
def weightedKinds : List String :=
  weight100Kinds ++
  ["impl_item", "const_item", "static_item", "mod_item",
   "lexical_declaration", "variable_declaration", "export_statement"]

deriving instance DecidableEq for Except

/-- Six sample matches exercising the facet buckets: a definition, an
implementation, a test usage, and three plain usages. -/
def c4SampleMatches : List Match :=
  [⟨["src", "a.rs"], 1, "fn alpha()", true, some (1, 3), some "alpha", 100,
      none, true, 10, 0⟩,
   ⟨["src", "b.rs"], 2, "impl Walk for B", true, some (2, 9), some "Walk", 90,
      some "B", false, 10, 0⟩,
   ⟨["src", "c.rs"], 3, "#[test]", false, none, none, 0, none, false, 10, 0⟩,
   ⟨["src", "d.rs"], 4, "alpha()", false, none, none, 0, none, false, 10, 0⟩,
   ⟨["src", "e.rs"], 5, "alpha()", false, none, none, 0, none, false, 10, 0⟩,
   ⟨["src", "f.rs"], 6, "alpha()", false, none, none, 0, none, false, 10, 0⟩]

/-- The filesystem for the C7 witness: `pkg` holds a `Cargo.toml`. -/
def fsCargoPkg : FsPath → Bool :=
  fun p => p = ["pkg", "Cargo.toml"]

/-- The ordering the claim describes: score strictly descending, score
ties broken by (path, line) ascending. -/
def rankOrdered (fsExists : FsPath → Bool) (now : Nat) (query : String)
    (scope : FsPath) (ctxParent ctxPkgRoot : Option FsPath)
    (a b : Match) : Prop :=
  score fsExists now b query scope ctxParent ctxPkgRoot <
    score fsExists now a query scope ctxParent ctxPkgRoot ∨
  (score fsExists now a query scope ctxParent ctxPkgRoot =
    score fsExists now b query scope ctxParent ctxPkgRoot ∧
    (pathCmp a.path b.path = Ordering.lt ∨
      (a.path = b.path ∧ a.line ≤ b.line)))


-- ===========================================================================
-- Theorems
-- ===========================================================================

-- ---------------------------------------------------------------------------
-- Comparator laws for the ranking order
-- ---------------------------------------------------------------------------

theorem strCompare_symm (a b : String) :
    (compare a b).swap = compare b a :=
  OrientedCmp.symm a b

theorem strCompare_eq_iff (a b : String) :
    compare a b = Ordering.eq ↔ a = b :=
  BEqCmp.cmp_iff_eq

theorem strCompare_le_trans {a b c : String}
    (h1 : compare a b ≠ Ordering.gt) (h2 : compare b c ≠ Ordering.gt) :
    compare a c ≠ Ordering.gt :=
  TransCmp.le_trans h1 h2

theorem strCompare_lt_le_trans {a b c : String}
    (h1 : compare a b = Ordering.lt) (h2 : compare b c ≠ Ordering.gt) :
    compare a c = Ordering.lt :=
  TransCmp.lt_le_trans h1 h2

theorem strCompare_congr_left {a b : String} (h : compare a b = Ordering.eq)
    (c : String) : compare a c = compare b c :=
  TransCmp.cmp_congr_left h

theorem pathCmp_symm (p q : FsPath) : (pathCmp p q).swap = pathCmp q p := by
  induction p generalizing q with
  | nil => cases q <;> rfl
  | cons a as ih =>
    cases q with
    | nil => rfl
    | cons b bs =>
      show ((compare a b).then (pathCmp as bs)).swap =
        (compare b a).then (pathCmp bs as)
      rw [Ordering.swap_then, ih bs, strCompare_symm a b]

instance : OrientedCmp pathCmp where
  symm p q := pathCmp_symm p q

theorem pathCmp_eq_iff {p q : FsPath} : pathCmp p q = Ordering.eq ↔ p = q := by
  induction p generalizing q with
  | nil => cases q <;> simp [pathCmp]
  | cons a as ih =>
    cases q with
    | nil => simp [pathCmp]
    | cons b bs =>
      show (compare a b).then (pathCmp as bs) = Ordering.eq ↔ _
      rw [Ordering.then_eq_eq, strCompare_eq_iff, ih]
      simp

theorem pathCmp_le_trans :
    ∀ {p q r : FsPath}, pathCmp p q ≠ Ordering.gt → pathCmp q r ≠ Ordering.gt →
      pathCmp p r ≠ Ordering.gt
  | [], q, r, _, _ => by
    cases r <;> simp [pathCmp]
  | _ :: _, [], _, h1, _ => absurd rfl h1
  | _ :: _, _ :: _, [], _, h2 => absurd rfl h2
  | a :: as, b :: bs, c :: cs, h1, h2 => by
    have h1' : (compare a b).then (pathCmp as bs) ≠ Ordering.gt := h1
    have h2' : (compare b c).then (pathCmp bs cs) ≠ Ordering.gt := h2
    show (compare a c).then (pathCmp as cs) ≠ Ordering.gt
    rw [Ne, Ordering.then_eq_gt, not_or, not_and] at h1' h2' ⊢
    refine ⟨strCompare_le_trans h1'.1 h2'.1, fun hac => ?_⟩
    rcases hab : compare a b with _ | _ | _
    · have : compare a c = Ordering.lt := strCompare_lt_le_trans hab h2'.1
      rw [hac] at this
      exact absurd this (by simp)
    · have hbc : compare b c = Ordering.eq := by
        rw [← strCompare_congr_left hab c]
        exact hac
      exact pathCmp_le_trans (h1'.2 hab) (h2'.2 hbc)
    · exact absurd hab h1'.1

instance : TransCmp pathCmp where
  le_trans := pathCmp_le_trans

/-- C6 counterexample: `type_alias_declaration` is one of the type kinds of
`DEFINITION_KINDS` (its `Interfaces & types` group), yet
`definition_weight` gives it the default 50, not the claimed 100. -/
theorem C6_counterexample :
    "type_alias_declaration" ∈ interfaceTypeKinds ∧
    "type_alias_declaration" ∈ DEFINITION_KINDS ∧
    definition_weight "type_alias_declaration" = 50 := by
  refine ⟨by decide, by decide, ?_⟩
  decide

/-- C6 (amended): the weight table holds as claimed for every kind except
the TS type-alias kind: the fifteen function/class/struct/trait-interface/
enum/type kinds of `weight100Kinds` weigh 100, `impl_item` 90,
const/static 80, `mod_item` 70, variable declarations 40, re-exports 30 —
but `type_alias_declaration` falls through to the default 50, as does
every kind outside the table. -/
theorem C6_definition_weight_table :
    (∀ k ∈ weight100Kinds, definition_weight k = 100) ∧
    definition_weight "impl_item" = 90 ∧
    (∀ k ∈ (["const_item", "static_item"] : List String),
      definition_weight k = 80) ∧
    definition_weight "mod_item" = 70 ∧
    (∀ k ∈ (["lexical_declaration", "variable_declaration"] : List String),
      definition_weight k = 40) ∧
    definition_weight "export_statement" = 30 ∧
    definition_weight "type_alias_declaration" = 50 ∧
    (∀ k : String, k ∉ weightedKinds → definition_weight k = 50) := by
  refine ⟨by decide, by decide, by decide, by decide, by decide, by decide,
    by decide, ?_⟩
  intro k hk
  simp only [weightedKinds, weight100Kinds, List.cons_append, List.nil_append,
    List.mem_cons, List.not_mem_nil, or_false, not_or] at hk
  obtain ⟨h1, h2, h3, h4, h5, h6, h7, h8, h9, h10, h11, h12, h13, h14, h15,
    h16, h17, h18, h19, h20, h21, h22⟩ := hk
  simp only [definition_weight, h1, h2, h3, h4, h5, h6, h7, h8, h9, h10, h11,
    h12, h13, h14, h15, h16, h17, h18, h19, h20, h21, h22, if_false, or_self,
    if_neg, not_false_eq_true]

/-- C6 witness: the amended table evaluated at a 100-kind and at a kind
outside the table. -/
theorem C6_witness :
    definition_weight "function_item" = 100 ∧
    definition_weight "some_other_kind" = 50 :=
  ⟨C6_definition_weight_table.1 "function_item" (by decide),
   C6_definition_weight_table.2.2.2.2.2.2.2 "some_other_kind" (by decide)⟩

/-- C9 counterexample: with 0 definitions (and 2 usages among 5 matches)
the header produced by `search_header` drops the
`(<D> definitions, <U> usages)` suffix the claim requires. -/
theorem C9_counterexample :
    search_header "walk" "./src" 5 0 2 ≠ specSearchHeader "walk" "./src" 5 0 2 := by
  decide

/-- C9 (amended): the first line of a search result is
`# Search: "<query>" in <scope> — <N> matches (<D> definitions, <U> usages)`
whenever the definitions count is nonzero; when it is zero the suffix is
dropped, leaving `# Search: "<query>" in <scope> — <N> matches`. -/
theorem C9_search_header_format (query scope : String)
    (total defs usages : Nat) :
    (defs ≠ 0 →
      search_header query scope total defs usages =
        specSearchHeader query scope total defs usages) ∧
    (defs = 0 →
      search_header query scope total defs usages =
        "# Search: \"" ++ query ++ "\" in " ++ scope ++ " — " ++
          toString total ++ " matches") := by
  constructor
  · intro h
    simp [search_header, specSearchHeader, h, String.append_assoc]
  · intro h
    simp [search_header, h, String.append_assoc]

/-- C9 witness: the amended format at concrete counts. -/
theorem C9_witness :
    search_header "q" "." 3 1 2 = specSearchHeader "q" "." 3 1 2 ∧
    search_header "q" "." 3 0 3 =
      "# Search: \"q\" in . — 3 matches" :=
  ⟨(C9_search_header_format "q" "." 3 1 2).1 (by decide),
   (C9_search_header_format "q" "." 3 0 3).2 rfl⟩

/-- C10: `BloomFilter::new` panics exactly when `expected_items = 0` or
`target_fpr` lies outside the open interval (0, 1) (the `none` case of
`newChecked`), and the construction `build_filter` performs on behalf of
`BloomFilterCache::contains` — `expected_items = max(1, |identifiers|)`,
`target_fpr = 0.01` — always passes the guard, for every file content. -/
theorem C10_new_panic_unreachable_from_cache
    (optimalBits : Nat → ℚ → Nat) (optimalHashes : Nat → Nat → Nat) :
    (∀ (n : Nat) (fpr : ℚ),
      BloomFilter.newChecked optimalBits optimalHashes n fpr = none ↔
        (n = 0 ∨ ¬(0 < fpr ∧ fpr < 1))) ∧
    (∀ content : String,
      BloomFilter.newChecked optimalBits optimalHashes
          ((extract_identifiers content).length.max 1) (1 / 100) =
        some (BloomFilter.new optimalBits optimalHashes
          ((extract_identifiers content).length.max 1) (1 / 100))) := by
  constructor
  · intro n fpr
    unfold BloomFilter.newChecked
    split
    · rename_i hc
      exact iff_of_true rfl hc
    · rename_i hc
      exact iff_of_false (by simp) hc
  · intro content
    have hmax : 1 ≤ (extract_identifiers content).length.max 1 :=
      Nat.le_max_right _ 1
    have h1 : ¬((extract_identifiers content).length.max 1 = 0 ∨
        ¬(0 < (1 / 100 : ℚ) ∧ (1 / 100 : ℚ) < 1)) := by
      push_neg
      exact ⟨by omega, by norm_num, by norm_num⟩
    rw [BloomFilter.newChecked, if_neg h1]

/-- C8 counterexample: a file of 3200 bytes estimates to exactly 800
tokens; the claim says such a file (at most 800 tokens) is rendered
whole, but `expand_match` uses a strict `< 800` comparison and falls back
to the definition range. -/
theorem C8_counterexample :
    estimate_tokens 3200 ≤ 800 ∧
    expand_range 3200 (List.replicate 9 "x") true (some (3, 4)) 3 = (3, 4) ∧
    (3, 4) ≠ (1, (List.replicate 9 ("x" : String)).length) := by
  refine ⟨by decide, ?_, by decide⟩
  decide

/-- C8 (amended): for files strictly under the 800-token threshold the
selected range before the leading-import adjustment is the whole file
(lines 1 through the last); the end of the final range is always the last
line, and for non-definition matches the final range is exactly the whole
file.  (For definitions the start may still advance past a leading import
block.) -/
theorem C8_small_file_renders_whole (byteLen : Nat) (lines : List String)
    (isDef : Bool) (defRange : Option (Nat × Nat)) (line : Nat)
    (h : estimate_tokens byteLen < EXPAND_FULL_FILE_THRESHOLD) :
    expand_select_range byteLen lines.length defRange line =
      (1, lines.length) ∧
    (expand_range byteLen lines isDef defRange line).2 = lines.length ∧
    (isDef = false →
      expand_range byteLen lines isDef defRange line = (1, lines.length)) := by
  have hsel : expand_select_range byteLen lines.length defRange line =
      (1, lines.length) := by
    simp [expand_select_range, h]
  refine ⟨hsel, ?_, ?_⟩
  · simp only [expand_range, hsel]
    split
    · split <;> rfl
    · rfl
  · intro hdef
    simp [expand_range, hsel, hdef]

/-- C8 witness: a 100-byte (25-token) file, rendered whole for a usage
match. -/
theorem C8_witness :
    estimate_tokens 100 < EXPAND_FULL_FILE_THRESHOLD ∧
    expand_range 100 ["a", "b", "c"] false none 2 = (1, 3) :=
  ⟨by decide,
   (C8_small_file_renders_whole 100 ["a", "b", "c"] false none 2
      (by decide)).2.2 rfl⟩

theorem getD_set_word (l : List Nat) (w v w' : Nat) :
    (l.set w v).getD w' 0 =
      if w = w' ∧ w < l.length then v else l.getD w' 0 := by
  induction l generalizing w w' with
  | nil => simp [List.set]
  | cons a as ih =>
    cases w with
    | zero =>
      cases w' with
      | zero => simp
      | succ w' => simp
    | succ w =>
      cases w' with
      | zero => simp
      | succ w' =>
        have hstep : ((a :: as).set (w + 1) v).getD (w' + 1) 0 =
            (as.set w v).getD w' 0 := by
          simp [List.set]
        rw [hstep, ih]
        by_cases hc : w = w' ∧ w < as.length
        · rw [if_pos hc, if_pos (by simp only [List.length_cons]; omega)]
        · rw [if_neg hc, if_neg (by simp only [List.length_cons]; omega)]
          simp

theorem and_shift_ne_zero_iff (x b : Nat) :
    ((x &&& (1 <<< b) ≠ 0) ↔ x.testBit b = true) := by
  rw [Nat.shiftLeft_eq, one_mul, Nat.and_two_pow]
  have h2 : (2 : Nat) ^ b ≠ 0 := Nat.pos_iff_ne_zero.mp (Nat.two_pow_pos b)
  cases h : x.testBit b
  · simp
  · simp [h2]

/-- One step of the insert loop sets its bit (when the word index is in
range). -/
theorem setStep_sets (l : List Nat) (w b : Nat) (hw : w < l.length) :
    ((l.set w ((l.getD w 0) ||| (1 <<< b))).getD w 0).testBit b = true := by
  rw [getD_set_word, if_pos ⟨rfl, hw⟩, Nat.testBit_or]
  simp [Nat.testBit_shiftLeft]

/-- One step of the insert loop preserves every set bit. -/
theorem setStep_persists (l : List Nat) (w b w' b' : Nat)
    (h : ((l.getD w' 0).testBit b') = true) :
    (((l.set w ((l.getD w 0) ||| (1 <<< b))).getD w' 0).testBit b') = true := by
  rw [getD_set_word]
  split
  · rename_i hcond
    obtain ⟨rfl, _⟩ := hcond
    rw [Nat.testBit_or, h]
    simp
  · exact h

/-- The word-set fold of `BloomFilter.insert` preserves list length. -/
theorem insertFold_length (idxOf : Nat → Nat) (is : List Nat) (l : List Nat) :
    (is.foldl (fun bits i =>
      bits.set (idxOf i / 64)
        ((bits.getD (idxOf i / 64) 0) ||| (1 <<< (idxOf i % 64)))) l).length =
      l.length := by
  induction is generalizing l with
  | nil => rfl
  | cons i is ih => rw [List.foldl_cons, ih, List.length_set]

/-- The word-set fold preserves every already-set bit. -/
theorem insertFold_persists (idxOf : Nat → Nat) (is : List Nat)
    (l : List Nat) (w' b' : Nat) (h : ((l.getD w' 0).testBit b') = true) :
    (((is.foldl (fun bits i =>
        bits.set (idxOf i / 64)
          ((bits.getD (idxOf i / 64) 0) ||| (1 <<< (idxOf i % 64)))) l).getD
      w' 0).testBit b') = true := by
  induction is generalizing l with
  | nil => exact h
  | cons i is ih =>
    rw [List.foldl_cons]
    exact ih _ (setStep_persists l _ _ _ _ h)

/-- After the fold, every index of the processed list has its bit set
(given the word indices stay in range). -/
theorem insertFold_sets (idxOf : Nat → Nat) (is : List Nat) (l : List Nat)
    (hin : ∀ i ∈ is, idxOf i / 64 < l.length) (j : Nat) (hj : j ∈ is) :
    (((is.foldl (fun bits i =>
        bits.set (idxOf i / 64)
          ((bits.getD (idxOf i / 64) 0) ||| (1 <<< (idxOf i % 64)))) l).getD
      (idxOf j / 64) 0).testBit (idxOf j % 64)) = true := by
  induction is generalizing l with
  | nil => cases hj
  | cons i is ih =>
    rcases List.mem_cons.1 hj with rfl | hj'
    · rw [List.foldl_cons]
      exact insertFold_persists idxOf is _ _ _
        (setStep_sets l (idxOf j / 64) (idxOf j % 64)
          (hin j (List.mem_cons_self j is)))
    · rw [List.foldl_cons]
      refine ih _ ?_ hj'
      intro i' hi'
      rw [List.length_set]
      exact hin i' (List.mem_cons_of_mem _ hi')

/-- Inserting any item preserves a positive `containsItem` answer. -/
theorem containsItem_mono (hashWithSeed : String → Nat → Nat)
    (bf : BloomFilter) (s t : String)
    (h : bf.containsItem hashWithSeed s = true) :
    (bf.insert hashWithSeed t).containsItem hashWithSeed s = true := by
  simp only [BloomFilter.containsItem, BloomFilter.insert, List.all_eq_true,
    decide_eq_true_eq] at h ⊢
  intro i hi
  rw [and_shift_ne_zero_iff]
  have hbit := h i hi
  rw [and_shift_ne_zero_iff] at hbit
  exact insertFold_persists
    (fun j => combined_hash (hashWithSeed t 0)
      (hashWithSeed t 0x517cc1b727220a95) j bf.numBits) _ _ _ _ hbit

/-- Inserting preserves the number of words. -/
theorem insert_bits_length (hashWithSeed : String → Nat → Nat)
    (bf : BloomFilter) (t : String) :
    (bf.insert hashWithSeed t).bits.length = bf.bits.length :=
  insertFold_length
    (fun i => combined_hash (hashWithSeed t 0)
      (hashWithSeed t 0x517cc1b727220a95) i bf.numBits)
    (List.range bf.numHashes) bf.bits

/-- `insert` keeps the structure well-formed. -/
theorem insert_wf (hashWithSeed : String → Nat → Nat) (bf : BloomFilter)
    (t : String) (h : bf.wf) : (bf.insert hashWithSeed t).wf := by
  obtain ⟨h1, h2⟩ := h
  refine ⟨?_, ?_⟩
  · rw [insert_bits_length]
    exact h1
  · rw [insert_bits_length]
    exact h2

/-- Directly after `insert s`, `containsItem s` answers true. -/
theorem containsItem_insert_self (hashWithSeed : String → Nat → Nat)
    (bf : BloomFilter) (s : String) (h : bf.wf) :
    (bf.insert hashWithSeed s).containsItem hashWithSeed s = true := by
  obtain ⟨hbits, hpos⟩ := h
  simp only [BloomFilter.containsItem, BloomFilter.insert, List.all_eq_true,
    decide_eq_true_eq]
  intro i hi
  rw [and_shift_ne_zero_iff]
  refine insertFold_sets _ _ _ ?_ i hi
  intro i' _
  show combined_hash (hashWithSeed s 0) (hashWithSeed s 0x517cc1b727220a95)
    i' bf.numBits / 64 < bf.bits.length
  have hlt : combined_hash (hashWithSeed s 0)
      (hashWithSeed s 0x517cc1b727220a95) i' bf.numBits < bf.numBits :=
    Nat.mod_lt _ (by omega)
  have hlt2 := Nat.lt_of_lt_of_le hlt (le_of_eq hbits)
  omega

/-- C2: the Bloom filter has no false negatives — once `insert s` has
been called on a well-formed filter, `contains s` answers true, no matter
which further items are inserted afterwards; equivalently a `false`
answer proves `s` was never inserted. -/
theorem C2_bloom_no_false_negatives (hashWithSeed : String → Nat → Nat)
    (bf : BloomFilter) (h : bf.wf) (s : String) (later : List String) :
    ((later.foldl (fun f t => f.insert hashWithSeed t)
      (bf.insert hashWithSeed s)).containsItem hashWithSeed s) = true := by
  have hstart := containsItem_insert_self hashWithSeed bf s h
  clear h
  generalize bf.insert hashWithSeed s = f0 at hstart ⊢
  induction later generalizing f0 with
  | nil => exact hstart
  | cons t ts ih =>
    exact ih _ (containsItem_mono hashWithSeed f0 s t hstart)

/-- C2 witness: a concrete well-formed filter (one 64-bit word, three
hashes), a concrete hash function, and a later insert. -/
theorem C2_witness :
    (BloomFilter.mk [0] 3 64).wf ∧
    ((["bar"].foldl
      (fun f t => f.insert (fun s seed => s.length * 131 + seed) t)
      ((BloomFilter.mk [0] 3 64).insert
        (fun s seed => s.length * 131 + seed) "foo")).containsItem
      (fun s seed => s.length * 131 + seed) "foo") = true :=
  ⟨⟨by decide, by decide⟩,
   C2_bloom_no_false_negatives (fun s seed => s.length * 131 + seed)
     (BloomFilter.mk [0] 3 64) ⟨by decide, by decide⟩ "foo" ["bar"]⟩

theorem BloomCache.find_store_self (c : BloomCache) (p : FsPath)
    (e : BloomFilter × Nat) : (c.store p e).find p = some e := by
  simp [BloomCache.store, BloomCache.find]

theorem BloomCache.containsSym_found (hashWithSeed : String → Nat → Nat)
    (optimalBits : Nat → ℚ → Nat) (optimalHashes : Nat → Nat → Nat)
    (c : BloomCache) (p : FsPath) (mt mtime : Nat) (content symbol : String)
    (f : BloomFilter) (hf : c.find p = some (f, mt)) :
    BloomCache.containsSym hashWithSeed optimalBits optimalHashes
        c p mtime content symbol =
      if mt = mtime then (f.containsItem hashWithSeed symbol, c)
      else
        ((build_filter hashWithSeed optimalBits optimalHashes
            content).containsItem hashWithSeed symbol,
          c.store p
            (build_filter hashWithSeed optimalBits optimalHashes content,
              mtime)) := by
  unfold BloomCache.containsSym
  rw [hf]

/-- C5: the cache trusts mtime.  If `contains(p, m, c1, s)` finds no
fresh entry for `p` (so it builds a filter from `c1` and caches it under
`(p, m)`), then (1) the answer and the cached entry come from `c1`;
(2) a later call with the same mtime but different content `c2` queries
the cached `c1`-filter, ignoring `c2`, and leaves the cache unchanged;
(3) a later call with a different mtime `m'` rebuilds from the supplied
content — `build_filter` sizes it for `max(1, |identifiers|)` — answers
from that filter, and stores it under `(p, m')`. -/
theorem C5_bloom_cache_trusts_mtime (hashWithSeed : String → Nat → Nat)
    (optimalBits : Nat → ℚ → Nat) (optimalHashes : Nat → Nat → Nat)
    (cache : BloomCache) (p : FsPath) (m m' : Nat) (c1 c2 s s' : String)
    (hmiss : ∀ e, cache.find p = some e → e.2 ≠ m) (hm' : m' ≠ m) :
    (BloomCache.containsSym hashWithSeed optimalBits optimalHashes
        cache p m c1 s).1 =
      (build_filter hashWithSeed optimalBits optimalHashes c1).containsItem
        hashWithSeed s ∧
    (BloomCache.containsSym hashWithSeed optimalBits optimalHashes
        cache p m c1 s).2.find p =
      some (build_filter hashWithSeed optimalBits optimalHashes c1, m) ∧
    BloomCache.containsSym hashWithSeed optimalBits optimalHashes
        (BloomCache.containsSym hashWithSeed optimalBits optimalHashes
          cache p m c1 s).2 p m c2 s' =
      ((build_filter hashWithSeed optimalBits optimalHashes c1).containsItem
          hashWithSeed s',
        (BloomCache.containsSym hashWithSeed optimalBits optimalHashes
          cache p m c1 s).2) ∧
    (BloomCache.containsSym hashWithSeed optimalBits optimalHashes
        (BloomCache.containsSym hashWithSeed optimalBits optimalHashes
          cache p m c1 s).2 p m' c2 s').1 =
      (build_filter hashWithSeed optimalBits optimalHashes c2).containsItem
        hashWithSeed s' ∧
    (BloomCache.containsSym hashWithSeed optimalBits optimalHashes
        (BloomCache.containsSym hashWithSeed optimalBits optimalHashes
          cache p m c1 s).2 p m' c2 s').2.find p =
      some (build_filter hashWithSeed optimalBits optimalHashes c2, m') := by
  have hfirst : BloomCache.containsSym hashWithSeed optimalBits optimalHashes
      cache p m c1 s =
      ((build_filter hashWithSeed optimalBits optimalHashes c1).containsItem
          hashWithSeed s,
        cache.store p
          (build_filter hashWithSeed optimalBits optimalHashes c1, m)) := by
    unfold BloomCache.containsSym
    cases hfind : cache.find p with
    | none => simp
    | some e =>
      obtain ⟨f, mt⟩ := e
      have : mt ≠ m := hmiss (f, mt) hfind
      simp [this]
  rw [hfirst]
  have hstoreFind := BloomCache.find_store_self cache p
    (build_filter hashWithSeed optimalBits optimalHashes c1, m)
  refine ⟨rfl, hstoreFind, ?_, ?_, ?_⟩
  · rw [BloomCache.containsSym_found hashWithSeed optimalBits optimalHashes
      _ p m m c2 s' _ hstoreFind, if_pos rfl]
  · rw [BloomCache.containsSym_found hashWithSeed optimalBits optimalHashes
      _ p m m' c2 s' _ hstoreFind, if_neg (fun h => hm' h.symm)]
  · rw [BloomCache.containsSym_found hashWithSeed optimalBits optimalHashes
      _ p m m' c2 s' _ hstoreFind, if_neg (fun h => hm' h.symm)]
    exact BloomCache.find_store_self _ _ _

/-- C5 witness: a concrete run — empty cache, path `a.rs`, mtimes 0 and
1, contents `"foo"` / `"bar"` — exercising all three conjuncts. -/
theorem C5_witness :
    (∀ e : BloomFilter × Nat, BloomCache.find [] ["a.rs"] = some e → e.2 ≠ 0) ∧
    (1 ≠ 0) ∧
    (BloomCache.containsSym (fun s seed => s.length * 131 + seed)
        (fun n _ => 10 * n) (fun m n => m / n) ([] : BloomCache)
        ["a.rs"] 0 "foo" "foo").2.find ["a.rs"] =
      some (build_filter (fun s seed => s.length * 131 + seed)
        (fun n _ => 10 * n) (fun m n => m / n) "foo", 0) := by
  refine ⟨?_, by decide, ?_⟩
  · intro e he
    simp [BloomCache.find] at he
  · exact (C5_bloom_cache_trusts_mtime (fun s seed => s.length * 131 + seed)
      (fun n _ => 10 * n) (fun m n => m / n) [] ["a.rs"] 0 1 "foo" "bar"
      "foo" "bar"
      (fun e he => by simp [BloomCache.find] at he) (by decide)).2.1

/-- The partition loop pushes each match into the filter of its chain
predicate. -/
theorem facetLoop_eq_filters (fs : FsPath → Bool) (primary : Option FsPath)
    (ms : List Match) :
    facetLoop fs primary ms =
      ⟨ms.filter (fun m => m.is_definition && !m.impl_target.isSome),
       ms.filter (fun m => m.is_definition && m.impl_target.isSome),
       ms.filter (fun m => !m.is_definition && is_test_match m),
       ms.filter (fun m => !m.is_definition && !is_test_match m &&
         is_same_package fs m.path primary),
       ms.filter (fun m => !m.is_definition && !is_test_match m &&
         !is_same_package fs m.path primary)⟩ := by
  induction ms with
  | nil => rfl
  | cons m rest ih =>
    simp only [facetLoop, ih, List.filter_cons]
    by_cases h1 : m.is_definition = true <;>
      by_cases h2 : m.impl_target.isSome = true <;>
      by_cases h3 : is_test_match m = true <;>
      by_cases h4 : is_same_package fs m.path primary = true <;>
      simp_all

/-- The five chain predicates split every list's length exactly. -/
theorem facet_filter5_length (fs : FsPath → Bool) (primary : Option FsPath)
    (ms : List Match) :
    (ms.filter (fun m => m.is_definition && !m.impl_target.isSome)).length +
    (ms.filter (fun m => m.is_definition && m.impl_target.isSome)).length +
    (ms.filter (fun m => !m.is_definition && is_test_match m)).length +
    (ms.filter (fun m => !m.is_definition && !is_test_match m &&
      is_same_package fs m.path primary)).length +
    (ms.filter (fun m => !m.is_definition && !is_test_match m &&
      !is_same_package fs m.path primary)).length = ms.length := by
  induction ms with
  | nil => rfl
  | cons m rest ih =>
    simp only [List.filter_cons]
    by_cases h1 : m.is_definition = true <;>
      by_cases h2 : m.impl_target.isSome = true <;>
      by_cases h3 : is_test_match m = true <;>
      by_cases h4 : is_same_package fs m.path primary = true <;>
      simp_all <;> omega

/-- C4: with more than 5 matches, faceting partitions the list into the
five buckets — Definitions (`is_definition`, no `impl_target`),
Implementations (`is_definition` with `impl_target`), Tests (non-
definitions with a test path/content marker), Usages — same package
(non-definition, non-test, same package root as the primary definition),
Usages — other (the rest).  Each bucket equals the subsequence of the
input satisfying its predicate (so global rank order is kept), every
match satisfies exactly one predicate, and the bucket sizes sum to the
input size. -/
theorem C4_facet_partition (fs : FsPath → Bool) (ms : List Match)
    (_h : 5 < ms.length) :
    (facet_matches fs ms).definitions =
      ms.filter (fun m => m.is_definition && !m.impl_target.isSome) ∧
    (facet_matches fs ms).implementations =
      ms.filter (fun m => m.is_definition && m.impl_target.isSome) ∧
    (facet_matches fs ms).tests =
      ms.filter (fun m => !m.is_definition && is_test_match m) ∧
    (facet_matches fs ms).usages_local =
      ms.filter (fun m => !m.is_definition && !is_test_match m &&
        is_same_package fs m.path (facetPrimaryPkg fs ms)) ∧
    (facet_matches fs ms).usages_cross =
      ms.filter (fun m => !m.is_definition && !is_test_match m &&
        !is_same_package fs m.path (facetPrimaryPkg fs ms)) ∧
    (∀ m : Match,
      ((m.is_definition && !m.impl_target.isSome : Bool) : Prop) ∨
      ((m.is_definition && m.impl_target.isSome : Bool) : Prop) ∨
      ((!m.is_definition && is_test_match m : Bool) : Prop) ∨
      ((!m.is_definition && !is_test_match m &&
        is_same_package fs m.path (facetPrimaryPkg fs ms) : Bool) : Prop) ∨
      ((!m.is_definition && !is_test_match m &&
        !is_same_package fs m.path (facetPrimaryPkg fs ms) : Bool) : Prop)) ∧
    (facet_matches fs ms).definitions.length +
      (facet_matches fs ms).implementations.length +
      (facet_matches fs ms).tests.length +
      (facet_matches fs ms).usages_local.length +
      (facet_matches fs ms).usages_cross.length = ms.length ∧
    (facet_matches fs ms).definitions.Sublist ms ∧
    (facet_matches fs ms).implementations.Sublist ms ∧
    (facet_matches fs ms).tests.Sublist ms ∧
    (facet_matches fs ms).usages_local.Sublist ms ∧
    (facet_matches fs ms).usages_cross.Sublist ms := by
  have heq := facetLoop_eq_filters fs (facetPrimaryPkg fs ms) ms
  have hd : (facet_matches fs ms).definitions =
      ms.filter (fun m => m.is_definition && !m.impl_target.isSome) := by
    rw [facet_matches, heq]
  have hi : (facet_matches fs ms).implementations =
      ms.filter (fun m => m.is_definition && m.impl_target.isSome) := by
    rw [facet_matches, heq]
  have ht : (facet_matches fs ms).tests =
      ms.filter (fun m => !m.is_definition && is_test_match m) := by
    rw [facet_matches, heq]
  have hl : (facet_matches fs ms).usages_local =
      ms.filter (fun m => !m.is_definition && !is_test_match m &&
        is_same_package fs m.path (facetPrimaryPkg fs ms)) := by
    rw [facet_matches, heq]
  have hc : (facet_matches fs ms).usages_cross =
      ms.filter (fun m => !m.is_definition && !is_test_match m &&
        !is_same_package fs m.path (facetPrimaryPkg fs ms)) := by
    rw [facet_matches, heq]
  refine ⟨hd, hi, ht, hl, hc, ?_, ?_, ?_, ?_, ?_, ?_, ?_⟩
  · intro m
    by_cases h1 : m.is_definition = true <;>
      by_cases h2 : m.impl_target.isSome = true <;>
      by_cases h3 : is_test_match m = true <;>
      by_cases h4 : is_same_package fs m.path (facetPrimaryPkg fs ms) = true <;>
      simp_all
  · rw [hd, hi, ht, hl, hc]
    exact facet_filter5_length fs (facetPrimaryPkg fs ms) ms
  · rw [hd]; exact List.filter_sublist ms
  · rw [hi]; exact List.filter_sublist ms
  · rw [ht]; exact List.filter_sublist ms
  · rw [hl]; exact List.filter_sublist ms
  · rw [hc]; exact List.filter_sublist ms

/-- C4 witness: the partition at six concrete matches. -/
theorem C4_witness :
    5 < c4SampleMatches.length ∧
    (facet_matches (fun _ => false) c4SampleMatches).definitions.length +
      (facet_matches (fun _ => false) c4SampleMatches).implementations.length +
      (facet_matches (fun _ => false) c4SampleMatches).tests.length +
      (facet_matches (fun _ => false) c4SampleMatches).usages_local.length +
      (facet_matches (fun _ => false) c4SampleMatches).usages_cross.length =
      c4SampleMatches.length :=
  ⟨by decide,
   (C4_facet_partition (fun _ => false) c4SampleMatches
      (by decide)).2.2.2.2.2.2.1⟩

/-- C7 counterexample: `pkg` contains only `setup.py`.  By the claim's
(and search/mod.rs') manifest list, `pkg` is the package root of both the
match directory `pkg/sub` and the context directory `pkg`, and the two
files do not share a directory; yet the ranking boost is 0, not 75 —
rank.rs' own `package_root` has no `setup.py` in its manifest list and
finds no root at all. -/
theorem C7_counterexample :
    mod_package_root fsSetupOnly ["pkg", "sub"] = some ["pkg"] ∧
    mod_package_root fsSetupOnly ["pkg"] = some ["pkg"] ∧
    FsPath.parent (["pkg", "sub", "m.py"] : FsPath) ≠
      FsPath.parent (["pkg", "ctx.py"] : FsPath) ∧
    rank_package_root fsSetupOnly ["pkg", "ctx.py"] = none ∧
    context_proximity fsSetupOnly ["pkg", "sub", "m.py"]
      (FsPath.parent ["pkg", "ctx.py"])
      (rank_package_root fsSetupOnly ["pkg", "ctx.py"]) = 0 := by
  decide

theorem ancestorChain_nil : ancestorChain [] = [[]] := rfl

theorem ancestorChain_cons (l : FsPath) (hl : l ≠ []) :
    ancestorChain l = l :: ancestorChain l.dropLast := by
  have hlen : 1 ≤ l.length := by
    cases l with
    | nil => exact absurd rfl hl
    | cons a rest => simp
  unfold ancestorChain
  rw [List.range_succ_eq_map, List.map_cons]
  rw [Nat.sub_zero, List.take_length, List.map_map]
  congr 1
  rw [List.length_dropLast]
  have hrange : l.length - 1 + 1 = l.length := by omega
  rw [hrange]
  refine List.map_congr_left ?_
  intro i hi
  have hi' : i < l.length := List.mem_range.1 hi
  show l.take (l.length - (i + 1)) = l.dropLast.take (l.length - 1 - i)
  rw [List.dropLast_eq_take, List.take_take]
  have : min (l.length - 1 - i) (l.length - 1) = l.length - 1 - i := by omega
  rw [this]
  congr 1
  omega

theorem packageRootGo_eq_find (fs : FsPath → Bool) (ms : List String) :
    ∀ (fuel : Nat) (d : FsPath), d.length < fuel →
      packageRootGo fs ms fuel d =
        (ancestorChain d).find? (hasManifest fs ms)
  | 0, _, h => absurd h (by omega)
  | fuel + 1, d, h => by
    cases hd : d with
    | nil =>
      rw [ancestorChain_nil]
      by_cases hman : hasManifest fs ms [] = true
      · simp [packageRootGo, hman]
      · simp only [Bool.not_eq_true] at hman
        simp [packageRootGo, hman]
    | cons a rest =>
      rw [ancestorChain_cons (a :: rest) (by simp)]
      by_cases hman : hasManifest fs ms (a :: rest) = true
      · simp [packageRootGo, hman, List.find?_cons_of_pos]
      · simp only [Bool.not_eq_true] at hman
        rw [List.find?_cons_of_neg _ (by simp [hman])]
        have hlt : (a :: rest).dropLast.length < fuel := by
          have h2 : (a :: rest).length < fuel + 1 := hd ▸ h
          simp only [List.length_dropLast, List.length_cons] at h2 ⊢
          omega
        simp only [packageRootGo, hman, Bool.false_eq_true, if_false]
        exact packageRootGo_eq_find fs ms fuel (a :: rest).dropLast hlt

/-- C7 (amended): the *ranking* package root of a path is the nearest
strict-ancestor directory (starting at `path.parent()`) containing one of
the six manifests `Cargo.toml`, `package.json`, `pyproject.toml`,
`go.mod`, `pom.xml`, `build.gradle` — `setup.py` is NOT part of the
ranking manifest list (only the faceting `package_root` of search/mod.rs
knows it); and the +75 boost is granted exactly when the match is not in
the context directory but the ranking package root of the match file's
directory equals the context's ranking package root. -/
theorem C7_rank_package_root_and_boost (fs : FsPath → Bool) :
    (∀ path : FsPath,
      rank_package_root fs path =
        (FsPath.parent path).bind
          (fun d => (ancestorChain d).find? (hasManifest fs RANK_MANIFESTS))) ∧
    (∀ (mPath : FsPath) (ctxParent : Option FsPath) (mdir r : FsPath),
      ¬(ctxParent.isSome ∧ FsPath.parent mPath = ctxParent) →
      FsPath.parent mPath = some mdir →
      rank_package_root fs mdir = some r →
      context_proximity fs mPath ctxParent (some r) = 75) := by
  constructor
  · intro path
    unfold rank_package_root
    cases FsPath.parent path with
    | none => rfl
    | some d =>
      simp only [Option.bind_some]
      exact packageRootGo_eq_find fs RANK_MANIFESTS (d.length + 1) d
        (by omega)
  · intro mPath ctxParent mdir r hne hmd hroot
    unfold context_proximity
    rw [if_neg hne]
    simp only [hmd, hroot]
    simp

/-- C7 witness: a match in `pkg/sub` and a context file in `pkg` share the
`Cargo.toml` package root and receive the +75 boost. -/
theorem C7_witness :
    (¬((some ["pkg"] : Option FsPath).isSome ∧
        FsPath.parent ["pkg", "sub", "m.rs"] = some ["pkg"])) ∧
    FsPath.parent (["pkg", "sub", "m.rs"] : FsPath) = some ["pkg", "sub"] ∧
    rank_package_root fsCargoPkg ["pkg", "sub"] = some ["pkg"] ∧
    context_proximity fsCargoPkg ["pkg", "sub", "m.rs"] (some ["pkg"])
      (some ["pkg"]) = 75 :=
  ⟨by decide, by decide, by decide,
   (C7_rank_package_root_and_boost fsCargoPkg).2 ["pkg", "sub", "m.rs"]
     (some ["pkg"]) ["pkg", "sub"] ["pkg"] (by decide) (by decide)
     (by decide)⟩

/-- Unfolding lemma for `apply_edits`. -/
theorem apply_edits_eq (stableHash : String → Nat) (lines : List String)
    (edits : List HlEdit) :
    apply_edits stableHash lines edits =
      if (edits.all fun e =>
          anchor_ok stableHash lines e.start_line e.start_hash &&
          anchor_ok stableHash lines e.end_line e.end_hash) then
        (if edits_disjoint (sortByStartDesc edits) then
          Except.ok (EditOutcome.Applied
            ((sortByStartDesc edits).foldl apply_one_edit lines))
        else Except.error "overlapping edits")
      else
        Except.ok (EditOutcome.HashMismatch
          (hashline_view stableHash lines)) := rfl

/-- C1 counterexample: two overlapping edits whose anchors all match
(every line hashes to 0 under this hash).  `apply_edits` leaves the file
unchanged but returns an overlap *error*, not a `HashMismatch`
diagnostic — a third outcome the claim's dichotomy does not admit. -/
theorem C1_counterexample :
    apply_edits (fun _ => 0) ["a", "b", "c"]
        [⟨1, 0, 2, 0, "x"⟩, ⟨2, 0, 3, 0, "y"⟩] =
      Except.error "overlapping edits" ∧
    disk_after ["a", "b", "c"]
      (apply_edits (fun _ => 0) ["a", "b", "c"]
        [⟨1, 0, 2, 0, "x"⟩, ⟨2, 0, 3, 0, "y"⟩]) = ["a", "b", "c"] := by
  decide

/-- C1 (amended): `apply_edits` either applies the whole batch and
returns the rewritten content, or leaves the file content unchanged and
returns either the hash-mismatch diagnostic (the current hashlined view)
or an overlap error; in particular whenever any edit's start or end
anchor fails to match the addressed line, no edit is applied, the file is
unchanged, and the result is the `HashMismatch` diagnostic. -/
theorem C1_apply_edits_all_or_nothing (stableHash : String → Nat)
    (lines : List String) (edits : List HlEdit) :
    ((∃ newLines, apply_edits stableHash lines edits =
        Except.ok (EditOutcome.Applied newLines)) ∨
      (disk_after lines (apply_edits stableHash lines edits) = lines ∧
        (apply_edits stableHash lines edits =
            Except.ok (EditOutcome.HashMismatch
              (hashline_view stableHash lines)) ∨
          apply_edits stableHash lines edits =
            Except.error "overlapping edits"))) ∧
    ((∃ e ∈ edits,
        (anchor_ok stableHash lines e.start_line e.start_hash &&
          anchor_ok stableHash lines e.end_line e.end_hash) = false) →
      apply_edits stableHash lines edits =
        Except.ok (EditOutcome.HashMismatch
          (hashline_view stableHash lines)) ∧
      disk_after lines (apply_edits stableHash lines edits) = lines) := by
  constructor
  · rw [apply_edits_eq]
    split_ifs with h1 h2
    · exact Or.inl ⟨_, rfl⟩
    · exact Or.inr ⟨rfl, Or.inr rfl⟩
    · exact Or.inr ⟨rfl, Or.inl rfl⟩
  · rintro ⟨e, he, hbad⟩
    have hall : edits.all (fun e =>
        anchor_ok stableHash lines e.start_line e.start_hash &&
        anchor_ok stableHash lines e.end_line e.end_hash) = false := by
      rw [List.all_eq_false]
      exact ⟨e, he, by simp [hbad]⟩
    rw [apply_edits_eq, if_neg (by simp [hall])]
    exact ⟨rfl, rfl⟩

/-- C1 witness: one edit with a wrong anchor hash — nothing is applied,
the file is unchanged and the diagnostic is returned. -/
theorem C1_witness :
    (∃ e ∈ ([⟨1, 1, 1, 1, "z"⟩] : List HlEdit),
      (anchor_ok (fun _ => 0) ["a"] e.start_line e.start_hash &&
        anchor_ok (fun _ => 0) ["a"] e.end_line e.end_hash) = false) ∧
    apply_edits (fun _ => 0) ["a"] [⟨1, 1, 1, 1, "z"⟩] =
      Except.ok (EditOutcome.HashMismatch (hashline_view (fun _ => 0) ["a"])) :=
  ⟨⟨⟨1, 1, 1, 1, "z"⟩, by decide, by decide⟩,
   ((C1_apply_edits_all_or_nothing (fun _ => 0) ["a"]
      [⟨1, 1, 1, 1, "z"⟩]).2
      ⟨⟨1, 1, 1, 1, "z"⟩, by decide, by decide⟩).1⟩

theorem ordering_bne_gt_iff (o : Ordering) :
    ((o != Ordering.gt) = true) ↔ o ≠ Ordering.gt := by
  cases o <;> decide

instance rank_cmp_transCmp (fsExists : FsPath → Bool) (now : Nat)
    (query : String) (scope : FsPath) (ctxParent ctxPkgRoot : Option FsPath) :
    TransCmp (rank_cmp fsExists now query scope ctxParent ctxPkgRoot) :=
  inferInstanceAs (TransCmp (compareLex (compareLex
    (flip (Ordering.byKey
      (fun m => score fsExists now m query scope ctxParent ctxPkgRoot)
      compare))
    (Ordering.byKey Match.path pathCmp))
    (Ordering.byKey Match.line compare)))

theorem rankLE_trans (fsExists : FsPath → Bool) (now : Nat) (query : String)
    (scope : FsPath) (ctxParent ctxPkgRoot : Option FsPath) :
    ∀ a b c : Match,
      rankLE fsExists now query scope ctxParent ctxPkgRoot a b →
      rankLE fsExists now query scope ctxParent ctxPkgRoot b c →
      rankLE fsExists now query scope ctxParent ctxPkgRoot a c := by
  intro a b c h1 h2
  simp only [rankLE, ordering_bne_gt_iff, ne_eq] at h1 h2 ⊢
  exact TransCmp.le_trans h1 h2

theorem rankLE_total (fsExists : FsPath → Bool) (now : Nat) (query : String)
    (scope : FsPath) (ctxParent ctxPkgRoot : Option FsPath) :
    ∀ a b : Match,
      rankLE fsExists now query scope ctxParent ctxPkgRoot a b ||
      rankLE fsExists now query scope ctxParent ctxPkgRoot b a := by
  intro a b
  simp only [rankLE, Bool.or_eq_true, ordering_bne_gt_iff, ne_eq]
  by_cases h : rank_cmp fsExists now query scope ctxParent ctxPkgRoot a b =
      Ordering.gt
  · right
    have hs : (rank_cmp fsExists now query scope ctxParent ctxPkgRoot a b).swap =
        rank_cmp fsExists now query scope ctxParent ctxPkgRoot b a :=
      OrientedCmp.symm a b
    rw [h] at hs
    rw [← hs]
    decide
  · left
    exact h

theorem rankLE_iff_rankOrdered (fsExists : FsPath → Bool) (now : Nat)
    (query : String) (scope : FsPath) (ctxParent ctxPkgRoot : Option FsPath)
    (a b : Match) :
    rankLE fsExists now query scope ctxParent ctxPkgRoot a b = true ↔
      rankOrdered fsExists now query scope ctxParent ctxPkgRoot a b := by
  have h1lt : (compare (score fsExists now b query scope ctxParent ctxPkgRoot)
      (score fsExists now a query scope ctxParent ctxPkgRoot) =
        Ordering.lt) ↔
      score fsExists now b query scope ctxParent ctxPkgRoot <
        score fsExists now a query scope ctxParent ctxPkgRoot :=
    LTCmp.cmp_iff_lt
  have h1eq : (compare (score fsExists now b query scope ctxParent ctxPkgRoot)
      (score fsExists now a query scope ctxParent ctxPkgRoot) =
        Ordering.eq) ↔
      score fsExists now b query scope ctxParent ctxPkgRoot =
        score fsExists now a query scope ctxParent ctxPkgRoot :=
    BEqCmp.cmp_iff_eq
  have h3le : (compare a.line b.line ≠ Ordering.gt) ↔ a.line ≤ b.line :=
    LECmp.cmp_iff_le
  simp only [rankLE, ordering_bne_gt_iff, ne_eq, rank_cmp, rankOrdered]
  constructor
  · intro h
    rcases hc1 : compare
        (score fsExists now b query scope ctxParent ctxPkgRoot)
        (score fsExists now a query scope ctxParent ctxPkgRoot) with _ | _ | _
    · exact Or.inl (h1lt.1 hc1)
    · have hS := h1eq.1 hc1
      rcases hc2 : pathCmp a.path b.path with _ | _ | _
      · exact Or.inr ⟨hS.symm, Or.inl rfl⟩
      · have hp := pathCmp_eq_iff.1 hc2
        refine Or.inr ⟨hS.symm, Or.inr ⟨hp, h3le.1 ?_⟩⟩
        intro hc3
        exact h (by rw [hc1, hc2, hc3]; rfl)
      · exact absurd (by rw [hc1, hc2]; rfl) h
    · exact absurd (by rw [hc1]; rfl) h
  · intro h hgt
    rcases h with hlt | ⟨hS, hp⟩
    · rw [h1lt.2 hlt] at hgt
      rcases hc2 : pathCmp a.path b.path with _ | _ | _ <;>
        rw [hc2] at hgt <;> simp [Ordering.then] at hgt
    · rw [h1eq.2 hS.symm] at hgt
      rcases hp with hplt | ⟨hpe, hle⟩
      · rw [hplt] at hgt
        simp [Ordering.then] at hgt
      · rw [pathCmp_eq_iff.2 hpe] at hgt
        simp only [Ordering.then] at hgt
        exact h3le.2 hle hgt

/-- C3: ranking's sort is deterministic and idempotent —
`sort (sort M) = sort M` — its output is ordered descending by the
integer score with score ties broken by `(path, line)` ascending, and it
is a permutation of its input.  (`now` is the clock sampled by `recency`;
the comparator is a pure function of it.) -/
theorem C3_rank_sort_deterministic_idempotent (fsExists : FsPath → Bool)
    (now : Nat) (ms : List Match) (query : String) (scope : FsPath)
    (context : Option FsPath) :
    rank_sort fsExists now (rank_sort fsExists now ms query scope context)
        query scope context =
      rank_sort fsExists now ms query scope context ∧
    (rank_sort fsExists now ms query scope context).Pairwise
      (rankOrdered fsExists now query scope (context.bind FsPath.parent)
        (context.bind (rank_package_root fsExists))) ∧
    (rank_sort fsExists now ms query scope context).Perm ms := by
  have htrans := rankLE_trans fsExists now query scope
    (context.bind FsPath.parent) (context.bind (rank_package_root fsExists))
  have htotal := rankLE_total fsExists now query scope
    (context.bind FsPath.parent) (context.bind (rank_package_root fsExists))
  simp only [rank_sort]
  refine ⟨?_, ?_, ?_⟩
  · exact List.mergeSort_of_sorted (List.sorted_mergeSort htrans htotal ms)
  · refine (List.sorted_mergeSort htrans htotal ms).imp ?_
    intro a b hab
    exact (rankLE_iff_rankOrdered fsExists now query scope
      (context.bind FsPath.parent) (context.bind (rank_package_root fsExists))
      a b).1 hab
  · exact List.mergeSort_perm ms _
